import Mathlib

/-
  Verification of the kernel threading and synchronization core
  (threads/thread.c, threads/synch.c, devices/timer.c) against its
  natural-language specification.

  Shallow embedding notes.
  The C sources are sequential in every region the claims touch: every
  mutation happens inside an interrupt-disabled bracket, so interrupt
  masking itself is modelled as a no-op and each bracketed region becomes a
  pure state-transformation function.  Blocking calls (sema_down inside
  lock_acquire) split the embedded function at the suspension point: the
  part before the block and the resumption after wake-up are separate
  functions.

  The repository carries two parallel donation implementations:
    - threads/synch.c wires lock_acquire/lock_release to
      propagate_eff_priority / recompute_eff_priority /
      remove_donators_related_lock, which use the fields
      eff_priority, donators, donate_elem and waiting_lock.  None of these
      fields is declared in include/threads/thread.h.
    - threads/thread.c defines refresh_priority / donate_priority_chain,
      which use the declared fields priority, base_priority, donations,
      donation_elem and wait_on_lock; donate_priority_chain has no caller.
  The Thread structure below therefore carries both field families, so that
  both variants can be embedded and compared.

  The generic doubly-linked-list library (lib/kernel/list.c) is not part of
  the provided sources; its operations (list_insert_ordered, list_sort,
  list_remove, push/pop) are modelled from the spec's descriptions of the
  orderings they maintain.  Likewise requeue_ready_list and
  thread_priority_compare are referenced by synch.c but defined nowhere in
  the provided sources; they are modelled from the spec where a claim needs
  them.
-/

/-- Priority range constant PRI_MIN from include/threads/thread.h. -/
def PRI_MIN : Int := 0

/-- Priority range constant PRI_DEFAULT from include/threads/thread.h. -/
def PRI_DEFAULT : Int := 31

/-- Priority range constant PRI_MAX from include/threads/thread.h. -/
def PRI_MAX : Int := 63

/-- Donation chain depth bound from include/threads/thread.h. -/
def DONATION_DEPTH_LIMIT : Nat := 8

/-- Sentinel returned by thread_create on failure, from include/threads/thread.h. -/
def TID_ERROR : Int := -1

/-- Fixed-point scale factor F = 1 << 14 from threads/thread.c. -/
def F : Int := 16384

/-- Fixed-point conversion INT_TO_FP from threads/thread.c. -/
def INT_TO_FP (n : Int) : Int := n * F

/-- Fixed-point conversion FP_TO_INT_ZERO from threads/thread.c; C integer
division truncates toward zero, which is Int.tdiv. -/
def FP_TO_INT_ZERO (x : Int) : Int := x.tdiv F

/-- Fixed-point conversion FP_TO_INT_NEAREST from threads/thread.c
(round half away from zero). -/
def FP_TO_INT_NEAREST (x : Int) : Int :=
  if x ≥ 0 then (x + F.tdiv 2).tdiv F else (x - F.tdiv 2).tdiv F

/-- Fixed-point addition FP_ADD_FP from threads/thread.c. -/
def FP_ADD_FP (x y : Int) : Int := x + y

/-- Fixed-point addition of an integer, FP_ADD_INT from threads/thread.c. -/
def FP_ADD_INT (x n : Int) : Int := x + n * F

/-- Fixed-point multiplication FP_MUL_FP from threads/thread.c. -/
def FP_MUL_FP (x y : Int) : Int := (x * y).tdiv F

/-- Fixed-point multiplication by an integer, FP_MUL_INT from threads/thread.c. -/
def FP_MUL_INT (x n : Int) : Int := x * n

/-- Fixed-point division FP_DIV_FP from threads/thread.c. -/
def FP_DIV_FP (x y : Int) : Int := (x * F).tdiv y

/-- Fixed-point division by an integer, FP_DIV_INT from threads/thread.c. -/
def FP_DIV_INT (x n : Int) : Int := x.tdiv n

/-- Priority clamp CLAMP_PRI from threads/thread.c. -/
def CLAMP_PRI (p : Int) : Int :=
  if p > PRI_MAX then PRI_MAX else if p < PRI_MIN then PRI_MIN else p

/-- Modelled from the spec: list_insert_ordered of the list library
(lib/kernel/list.c, not among the provided sources) inserts the new element
in front of the first existing element that the comparator places after it,
keeping a list that is sorted by the comparator sorted. -/
def insertOrderedBy (less : α → α → Bool) (x : α) : List α → List α
  | [] => [x]
  | y :: ys => if less x y then x :: y :: ys else y :: insertOrderedBy less x ys

/-- Modelled from the spec: list_sort of the list library (not among the
provided sources) stably sorts a list by the comparator; modelled as
left-fold insertion sort, which is stable for a strict comparator. -/
def sortBy (r : α → α → Bool) (l : List α) : List α :=
  l.foldl (fun acc x => insertOrderedBy r x acc) []

/-- Thread lifecycle states from include/threads/thread.h. -/
inductive TStatus where
  | running
  | ready
  | blocked
  | dying
deriving DecidableEq, Repr

/-- Thread descriptor.  Carries the fields declared in
include/threads/thread.h (priority, base_priority, wait_on_lock, donations,
held_locks, wake_tick, nice, recent_cpu) together with the fields that
threads/synch.c uses but that are declared nowhere in the provided sources
(eff_priority, donators, waiting_lock).  Threads and locks are identified
by natural numbers; the list fields hold identifiers. -/
structure Thread where
  priority : Int
  base_priority : Int
  eff_priority : Int
  wait_on_lock : Option Nat
  donations : List Nat
  waiting_lock : Option Nat
  donators : List Nat
  held_locks : List Nat
  wake_tick : Int
  nice : Int
  recent_cpu : Int
  status : TStatus
  isIdle : Bool
deriving DecidableEq, Repr

/-- Lock with its embedded binary semaphore, from include/threads/synch.h. -/
structure LockSt where
  holder : Option Nat
  value : Nat
  waiters : List Nat
deriving DecidableEq, Repr

/-- Kernel state for the synchronization claims: thread descriptors and
locks addressed by identifier. -/
structure KS where
  thr : Nat → Thread
  lock : Nat → LockSt

/-- Update one thread descriptor in the kernel state. -/
def updThr (s : KS) (i : Nat) (f : Thread → Thread) : KS :=
  { s with thr := fun j => if j = i then f (s.thr j) else s.thr j }

/-- Update one lock in the kernel state. -/
def updLock (s : KS) (i : Nat) (f : LockSt → LockSt) : KS :=
  { s with lock := fun j => if j = i then f (s.lock j) else s.lock j }

/-- Comparator higher_priority_donate from threads/synch.c: orders donator
threads by descending eff_priority. -/
def higher_priority_donate (s : KS) (a b : Nat) : Bool :=
  decide ((s.thr a).eff_priority > (s.thr b).eff_priority)

/-- Body of recompute_eff_priority from threads/synch.c: start from
base_priority and take the maximum over the donators' eff_priority. -/
def effMaxOf (s : KS) (t : Thread) : Int :=
  t.donators.foldl
    (fun m d => if (s.thr d).eff_priority > m then (s.thr d).eff_priority else m)
    t.base_priority

/-- recompute_eff_priority from threads/synch.c. -/
def recompute_eff_priority (s : KS) (i : Nat) : KS :=
  updThr s i (fun t => { t with eff_priority := effMaxOf s t })

/-- remove_donators_related_lock from threads/synch.c: drop every donator
whose waiting_lock is this lock. -/
def remove_donators_related_lock (s : KS) (i lid : Nat) : KS :=
  updThr s i (fun t =>
    { t with donators :=
        t.donators.filter (fun d => decide (¬ (s.thr d).waiting_lock = some lid)) })

/-- propagate_eff_priority from threads/synch.c, with the source's depth
counter made explicit as fuel (the loop runs at most MAX_DEPTH = 8
iterations).  Each iteration re-inserts the donor into the holder's
donators, stops if the donor does not outrank the holder, otherwise
recomputes the holder's eff_priority and continues up the chain when the
value changed.  The call to requeue_ready_list only reorders the ready
queue, which this state does not carry, so it contributes no field change
here.  The two list operations that each iteration applies to the
holder's donators (the conditional list_remove followed by
list_insert_ordered) are factored into donators_reinsert; removing an
absent element is a no-op, exactly as the source's is_contain guard
arranges. -/
def donators_reinsert (s : KS) (cur h : Nat) : KS :=
  let s1 := updThr s h (fun t => { t with donators := t.donators.erase cur })
  updThr s1 h (fun t =>
    { t with donators := insertOrderedBy (higher_priority_donate s1) cur t.donators })

def propagate_eff_priority (s : KS) (cur : Nat) : Nat → KS
  | 0 => s
  | fuel + 1 =>
    match (s.thr cur).waiting_lock with
    | none => s
    | some lid =>
      match (s.lock lid).holder with
      | none => s
      | some h =>
        let s2 := donators_reinsert s cur h
        let before := (s2.thr h).eff_priority
        if (s2.thr cur).eff_priority ≤ before then s2
        else
          let s3 := recompute_eff_priority s2 h
          if (s3.thr h).eff_priority = before then s3
          else propagate_eff_priority s3 h fuel

/-- lock_acquire from threads/synch.c.  The mlfqs argument mirrors the
global thread_mlfqs flag; the source consults it nowhere in this function.
When the lock has a holder the caller records the lock in waiting_lock,
inserts itself into the holder's donators, runs propagate_eff_priority and
then blocks inside sema_down (value is 0 while the lock is held), which
appends it to the semaphore's waiters; the function resumes in
lock_acquire_finish once woken.  When the lock is free, sema_down
decrements the semaphore and the caller takes ownership immediately. -/
def lock_acquire (mlfqs : Bool) (s : KS) (cur lid : Nat) : KS :=
  match (s.lock lid).holder with
  | some h =>
    let s1 := updThr s cur (fun t => { t with waiting_lock := some lid })
    let s2 := updThr s1 h (fun t =>
      { t with donators := insertOrderedBy (higher_priority_donate s1) cur t.donators })
    let s3 := propagate_eff_priority s2 cur DONATION_DEPTH_LIMIT
    let s4 := updLock s3 lid (fun l => { l with waiters := l.waiters ++ [cur] })
    updThr s4 cur (fun t => { t with status := TStatus.blocked })
  | none =>
    let s1 := updLock s lid (fun l => { l with value := l.value - 1 })
    let s2 := updThr s1 cur (fun t => { t with waiting_lock := none })
    let s3 := updLock s2 lid (fun l => { l with holder := some cur })
    updThr s3 cur (fun t => { t with held_locks := t.held_locks ++ [lid] })

/-- Resumption of lock_acquire after sema_down returns (the lines following
the sema_down call in threads/synch.c): clear waiting_lock, take ownership,
append the lock to held_locks. -/
def lock_acquire_finish (s : KS) (cur lid : Nat) : KS :=
  let s1 := updThr s cur (fun t => { t with waiting_lock := none })
  let s2 := updLock s1 lid (fun l => { l with holder := some cur })
  updThr s2 cur (fun t => { t with held_locks := t.held_locks ++ [lid] })

/-- sema_try_down from threads/synch.c, specialized to a lock's embedded
semaphore: decrement if positive and report success. -/
def sema_try_down (s : KS) (lid : Nat) : KS × Bool :=
  if (s.lock lid).value > 0 then
    (updLock s lid (fun l => { l with value := l.value - 1 }), true)
  else (s, false)

/-- lock_try_acquire from threads/synch.c: try the semaphore and on success
record the holder.  The source sets only lock->holder; held_locks is not
touched on this path. -/
def lock_try_acquire (s : KS) (cur lid : Nat) : KS × Bool :=
  let r := sema_try_down s lid
  if r.2 then (updLock r.1 lid (fun l => { l with holder := some cur }), true)
  else (r.1, false)

/-- Modelled from the spec: the comparator thread_priority_compare that
sema_up passes to list_sort is declared nowhere in the provided sources;
the spec says the semaphore wakes the waiter with the highest effective
priority at the moment of up, so waiters are ordered by descending
effective priority. -/
def thread_priority_compare (s : KS) (a b : Nat) : Bool :=
  decide ((s.thr a).eff_priority > (s.thr b).eff_priority)

/-- sema_up from threads/synch.c, specialized to a lock's embedded
semaphore: if waiters exist, sort them by priority, pop the front one and
unblock it, then increment the value.  The final yield check compares
eff_priority values only and changes no thread or lock field, so it is not
part of the state transformation. -/
def sema_up (s : KS) (lid : Nat) : KS :=
  let s1 :=
    match sortBy (thread_priority_compare s) (s.lock lid).waiters with
    | [] => s
    | next :: rest =>
      let sa := updLock s lid (fun l => { l with waiters := rest })
      updThr sa next (fun t => { t with status := TStatus.ready })
  updLock s1 lid (fun l => { l with value := l.value + 1 })

/-- lock_release from threads/synch.c: when donators exist, drop the ones
tied to this lock and recompute eff_priority; requeue_ready_list (ready
queue reordering, not carried by this state) is skipped; remove the lock
from held_locks; clear the holder; sema_up. -/
def lock_release (s : KS) (cur lid : Nat) : KS :=
  let s1 :=
    if (s.thr cur).donators = [] then s
    else recompute_eff_priority (remove_donators_related_lock s cur lid) cur
  let s2 := updThr s1 cur (fun t => { t with held_locks := t.held_locks.erase lid })
  let s3 := updLock s2 lid (fun l => { l with holder := none })
  sema_up s3 lid

/-- refresh_priority from threads/thread.c (the alternate donation variant):
reset priority to base_priority and raise it to the front donation's
priority when that is higher. -/
def refresh_priority (s : KS) (i : Nat) : KS :=
  updThr s i (fun t =>
    let p := t.base_priority
    match t.donations with
    | [] => { t with priority := p }
    | d :: _ =>
      if (s.thr d).priority > p then { t with priority := (s.thr d).priority }
      else { t with priority := p })

/-- Modelled from the spec: the donation discipline of spec section 4.5 as
the spec states it for the adopted refresh-priority variant.  Starting from
donor C and the holder H of the lock C waits on, for up to 8 hops: insert
the donor into the donee's donations, overwrite the donee's single
priority field with max of base_priority and the donated priority, stop
when the donee already has priority at least the donor's or the chain
ends.  This definition exists only to be compared with the live code
path. -/
def spec_donate_chain (s : KS) (donor : Nat) (donated : Int) : Nat → KS
  | 0 => s
  | fuel + 1 =>
    match (s.thr donor).wait_on_lock with
    | none => s
    | some lid =>
      match (s.lock lid).holder with
      | none => s
      | some h =>
        if (s.thr h).priority ≥ donated then s
        else
          let s1 := updThr s h (fun t =>
            { t with
              donations := insertOrderedBy
                (fun a b => decide ((s.thr a).priority > (s.thr b).priority)) donor t.donations,
              priority := if donated > t.base_priority then donated else t.base_priority })
          spec_donate_chain s1 h ((s1.thr h).priority) fuel

/-- Modelled from the spec: lock acquisition on a held lock as the spec
states it for the adopted variant, for refinement comparison with
lock_acquire: record wait_on_lock and walk the donation chain overwriting
the priority field. -/
def spec_lock_acquire_blocked (s : KS) (cur lid : Nat) : KS :=
  let s1 := updThr s cur (fun t => { t with wait_on_lock := some lid })
  spec_donate_chain s1 cur ((s1.thr cur).priority) DONATION_DEPTH_LIMIT

/-- Result of thread_unblock from threads/thread.c: the updated ready queue
(a list of priorities, highest first), whether the yield-on-return flag is
set after the call, and whether an immediate thread_yield happened. -/
structure UnblockRes where
  ready : List Int
  yield_flag : Bool
  yielded : Bool
deriving DecidableEq, Repr

/-- compare_thread_priority from threads/thread.c: descending order on the
priority field. -/
def compare_thread_priority (a b : Int) : Bool := decide (a > b)

/-- thread_unblock from threads/thread.c: insert the thread into the ready
queue ordered by descending priority; inside an interrupt handler request
yield-on-return, otherwise yield immediately when the unblocked thread's
priority exceeds the current thread's. -/
def thread_unblock (inIntr : Bool) (curPr tPr : Int) (ready : List Int)
    (flag : Bool) : UnblockRes :=
  let r := insertOrderedBy compare_thread_priority tPr ready
  if inIntr then ⟨r, true, false⟩
  else if tPr > curPr then ⟨r, flag, true⟩
  else ⟨r, flag, false⟩

/-- Yield decision of thread_create from threads/thread.c (normal context):
thread_unblock may yield, and afterwards thread_create itself yields once
more when the new thread's priority exceeds the current thread's. -/
def thread_create_yields (curPr tPr : Int) (ready : List Int) : Bool :=
  (thread_unblock false curPr tPr ready false).yielded || decide (tPr > curPr)

/-- Scheduler-registry state for thread_create: the tid counter, the list
of registered tids in registration order, and the ready queue. -/
structure CState where
  next_tid : Int
  all_list : List Int
  ready : List Int
deriving DecidableEq, Repr

/-- thread_create from threads/thread.c with the page-allocation outcome
made explicit.  When palloc_get_page returns NULL the function returns
TID_ERROR before init_thread, allocate_tid or thread_unblock run, so the
state is returned untouched.  On success the thread is registered in
all_list (init_thread), a tid is allocated, and the thread is unblocked
into the ready queue. -/
def thread_create (allocOk : Bool) (priority : Int) (s : CState) : Int × CState :=
  if allocOk = false then (TID_ERROR, s)
  else
    let tid := s.next_tid
    ( tid,
      { next_tid := s.next_tid + 1,
        all_list := s.all_list ++ [tid],
        ready := insertOrderedBy compare_thread_priority priority s.ready } )

/-- mlfqs_priority from threads/thread.c: skip the idle thread, otherwise
overwrite the priority field with the clamped MLFQS formula. -/
def mlfqs_priority (t : Thread) : Thread :=
  if t.isIdle then t
  else { t with
    priority := CLAMP_PRI (PRI_MAX - FP_TO_INT_ZERO (FP_DIV_INT t.recent_cpu 4) - t.nice * 2) }

/-- mlfqs_recent_cpu from threads/thread.c: recent_cpu decays by the factor
2 load_avg / (2 load_avg + 1) and nice is added. -/
def mlfqs_recent_cpu (load_avg : Int) (t : Thread) : Thread :=
  if t.isIdle then t
  else
    let two_la := FP_MUL_INT load_avg 2
    let coeff := FP_DIV_FP two_la (FP_ADD_INT two_la 1)
    { t with recent_cpu := FP_ADD_INT (FP_MUL_FP coeff t.recent_cpu) t.nice }

/-- mlfqs_load_avg from threads/thread.c: exponentially weighted moving
average of the runnable-thread count. -/
def mlfqs_load_avg (ready_threads : Int) (load_avg : Int) : Int :=
  let term1 := FP_MUL_FP (FP_DIV_INT (INT_TO_FP 59) 60) load_avg
  let term2 := FP_MUL_FP (FP_DIV_INT (INT_TO_FP 1) 60) (INT_TO_FP ready_threads)
  FP_ADD_FP term1 term2

/-- mlfqs_increment from threads/thread.c applied to the thread descriptor
at index cur of the all-threads list: the running thread's recent_cpu
gains one (in fixed point) unless it is the idle thread. -/
def mlfqs_increment (cur : Nat) (l : List Thread) : List Thread :=
  match l.get? cur with
  | none => l
  | some t =>
    if t.isIdle then l
    else l.set cur { t with recent_cpu := FP_ADD_INT t.recent_cpu 1 }

/-- Per-thread body of the all_list loop in
mlfqs_recalc_all_recent_cpu_and_priority from threads/thread.c: on a
second boundary recompute recent_cpu first, then always recompute the
priority. -/
def mlfqs_recalc_thread (second_boundary : Bool) (load_avg : Int) (t : Thread) : Thread :=
  mlfqs_priority (if second_boundary then mlfqs_recent_cpu load_avg t else t)

/-- mlfqs_recalc_all_recent_cpu_and_priority from threads/thread.c, the
all_list traversal.  The trailing ready-queue re-sort and the possible
yield-on-return request reorder the ready queue only; they change no
thread's priority, recent_cpu or nice, so the traversal is the whole
effect on the thread descriptors. -/
def mlfqs_recalc_all (second_boundary : Bool) (load_avg : Int)
    (all_list : List Thread) : List Thread :=
  all_list.map (mlfqs_recalc_thread second_boundary load_avg)

/-- State touched by the MLFQS branch of the timer interrupt: the tick
counter, load_avg, the all-threads list with the index of the running
thread, and the ready-thread count that mlfqs_load_avg reads. -/
structure MState where
  ticks : Int
  load_avg : Int
  all_list : List Thread
  cur : Nat
  ready_threads : Int
deriving Repr

/-- MLFQS portion of timer_interrupt from devices/timer.c: after ticks++
and thread_tick, when thread_mlfqs holds, mlfqs_increment runs every tick;
on a second boundary load_avg is updated and the full recalculation runs;
otherwise on every fourth tick the recalculation runs (its internal
second-boundary test sees the same tick counter). -/
def timer_interrupt_mlfqs (freq : Int) (s : MState) : MState :=
  let t := s.ticks + 1
  let l1 := mlfqs_increment s.cur s.all_list
  if t % freq = 0 then
    let la := mlfqs_load_avg s.ready_threads s.load_avg
    { s with ticks := t, load_avg := la,
             all_list := mlfqs_recalc_all (t % freq = 0) la l1 }
  else if t % 4 = 0 then
    { s with ticks := t, all_list := mlfqs_recalc_all (t % freq = 0) s.load_avg l1 }
  else { s with ticks := t, all_list := l1 }

/-- thread_set_nice from threads/thread.c.  The mlfqs argument mirrors the
global thread_mlfqs flag; the source consults it nowhere in this function.
The nice argument is clamped to -20..20, stored, and mlfqs_priority
immediately recomputes the caller's priority; the subsequent comparison
with the ready-queue head can only trigger a yield and changes no field of
the thread. -/
def thread_set_nice (mlfqs : Bool) (cur : Thread) (n : Int) : Thread :=
  let n1 := if n < -20 then (-20 : Int) else if n > 20 then (20 : Int) else n
  mlfqs_priority { cur with nice := n1 }

/-- Entry of a sleep list: a sleeping thread identifier with its absolute
wake-up tick. -/
structure Sleeper where
  tid : Nat
  wake_tick : Int
deriving DecidableEq, Repr

/-- Comparator sleep_less from devices/timer.c: ascending wake_tick. -/
def sleep_less (a b : Sleeper) : Bool := decide (a.wake_tick < b.wake_tick)

/-- timer_sleep from devices/timer.c: a non-positive duration returns at
once without touching the sleep list or blocking; otherwise the absolute
wake tick is now + ticks, the caller is inserted into the sleep list in
ascending wake_tick order and blocks.  The Bool records whether the caller
blocked. -/
def timer_sleep (now ticks : Int) (tid : Nat) (sl : List Sleeper) :
    List Sleeper × Bool :=
  if ticks ≤ 0 then (sl, false)
  else (insertOrderedBy sleep_less { tid := tid, wake_tick := now + ticks } sl, true)

/-- Wake-up loop of timer_interrupt from devices/timer.c: while the head of
the sleep list is due (wake_tick not in the future), pop and unblock it.
Returns the remaining sleep list and the woken sleepers in wake order. -/
def timer_wake (now : Int) : List Sleeper → List Sleeper × List Sleeper
  | [] => ([], [])
  | t :: rest =>
    if t.wake_tick > now then (t :: rest, [])
    else
      let r := timer_wake now rest
      (r.1, t :: r.2)

/-- One waiter entry of a condition variable, struct semaphore_elem from
threads/synch.c: a single semaphore whose waiters list holds the blocked
thread(s).  cond_wait initializes the semaphore to 0 and the caller blocks
on it, so the entry created by cond_wait has exactly the caller in its
waiters. -/
structure SemElem where
  waiters : List Nat
deriving DecidableEq, Repr

/-- cond_wait from threads/synch.c, enqueue part: push the fresh waiter
entry to the back of cond->waiters (list_push_back; no ordering, no
recorded priority), then release the lock and block on the entry's
semaphore, which records the caller as that semaphore's waiter. -/
def cond_wait (cv : List SemElem) (tid : Nat) : List SemElem :=
  cv ++ [{ waiters := [tid] }]

/-- Comparator cond_sema_priority_compare from threads/synch.c: compare two
waiter entries by the current eff_priority of the front thread of each
entry's semaphore waiters; an entry without waiters sorts last.  The eff
argument gives each thread's current eff_priority. -/
def cond_sema_priority_compare (eff : Nat → Int) (a b : SemElem) : Bool :=
  match a.waiters.head?, b.waiters.head? with
  | none, none => false
  | none, some _ => false
  | some _, none => true
  | some ta, some tb => decide (eff ta > eff tb)

/-- cond_signal from threads/synch.c: if waiters exist, sort the entries by
cond_sema_priority_compare (using priorities as they are now), pop the
front entry and up its semaphore, which wakes that entry's front waiter.
Returns the woken thread (if any) and the remaining entries. -/
def cond_signal (eff : Nat → Int) (cv : List SemElem) : Option Nat × List SemElem :=
  match sortBy (cond_sema_priority_compare eff) cv with
  | [] => (none, cv)
  | e :: rest => (e.waiters.head?, rest)

/-- Modelled from the spec: the condition-variable waiter discipline as the
spec states it, for refinement comparison with cond_wait and cond_signal.
Each entry is tagged with the caller's priority at enqueue time and
inserted in descending order of that recorded priority. -/
def spec_cond_wait (cw : List (Nat × Int)) (tid : Nat) (prioAtEnqueue : Int) :
    List (Nat × Int) :=
  insertOrderedBy (fun a b => decide (a.2 > b.2)) (tid, prioAtEnqueue) cw

/-- Modelled from the spec: cond_signal as the spec states it wakes the
waiter with the highest recorded priority, the front of the ordered
list. -/
def spec_cond_signal (cw : List (Nat × Int)) : Option Nat × List (Nat × Int) :=
  match cw with
  | [] => (none, [])
  | e :: rest => (some e.1, rest)

/-- MLFQS priority formula exactly as the spec words it: clamp of PRI_MAX
minus the integer quotient of recent_cpu by 4 (converted from 17.14 fixed
point) minus twice nice, to the range PRI_MIN..PRI_MAX.  Stated with
min and max for comparison with the source's CLAMP_PRI chain. -/
def mlfqs_spec_priority (rc n : Int) : Int :=
  max PRI_MIN (min PRI_MAX (PRI_MAX - (rc.tdiv 4).tdiv F - 2 * n))

theorem CLAMP_PRI_eq_max_min (p : Int) : CLAMP_PRI p = max PRI_MIN (min PRI_MAX p) := by
  unfold CLAMP_PRI PRI_MIN PRI_MAX
  split
  · omega
  · split <;> omega

theorem mlfqs_priority_isIdle (t : Thread) : (mlfqs_priority t).isIdle = t.isIdle := by
  unfold mlfqs_priority
  split <;> rfl

theorem mlfqs_priority_recent_cpu (t : Thread) :
    (mlfqs_priority t).recent_cpu = t.recent_cpu := by
  unfold mlfqs_priority
  split <;> rfl

theorem mlfqs_priority_nice (t : Thread) : (mlfqs_priority t).nice = t.nice := by
  unfold mlfqs_priority
  split <;> rfl

theorem mlfqs_recent_cpu_isIdle (la : Int) (t : Thread) :
    (mlfqs_recent_cpu la t).isIdle = t.isIdle := by
  unfold mlfqs_recent_cpu
  split <;> rfl

theorem mlfqs_recent_cpu_nice (la : Int) (t : Thread) :
    (mlfqs_recent_cpu la t).nice = t.nice := by
  unfold mlfqs_recent_cpu
  split <;> rfl

theorem mlfqs_priority_formula (t : Thread) (h : ¬ t.isIdle) :
    (mlfqs_priority t).priority = mlfqs_spec_priority t.recent_cpu t.nice := by
  unfold mlfqs_priority
  rw [if_neg h]
  show CLAMP_PRI (PRI_MAX - FP_TO_INT_ZERO (FP_DIV_INT t.recent_cpu 4) - t.nice * 2)
      = mlfqs_spec_priority t.recent_cpu t.nice
  rw [CLAMP_PRI_eq_max_min]
  unfold mlfqs_spec_priority FP_TO_INT_ZERO FP_DIV_INT
  ring_nf

theorem mlfqs_recalc_thread_formula (b : Bool) (la : Int) (u : Thread)
    (h : ¬ (mlfqs_recalc_thread b la u).isIdle) :
    (mlfqs_recalc_thread b la u).priority
      = mlfqs_spec_priority (mlfqs_recalc_thread b la u).recent_cpu
          (mlfqs_recalc_thread b la u).nice := by
  unfold mlfqs_recalc_thread at h ⊢
  rw [mlfqs_priority_recent_cpu, mlfqs_priority_nice]
  rw [mlfqs_priority_isIdle] at h
  exact mlfqs_priority_formula _ h

/-- Claim C7: under MLFQS, every 4 ticks the timer interrupt recomputes the
priority of every non-idle thread as clamp(PRI_MAX - recent_cpu/4 - 2*nice,
PRI_MIN, PRI_MAX), where the 17.14 fixed-point recent_cpu is divided by 4
and the quotient converted to an integer (truncating toward zero) before
the subtraction. -/
theorem mlfqs_priority_every_4_ticks (freq : Int) (s : MState)
    (h4 : (s.ticks + 1) % 4 = 0) :
    ∀ t ∈ (timer_interrupt_mlfqs freq s).all_list, ¬ t.isIdle →
      t.priority = mlfqs_spec_priority t.recent_cpu t.nice := by
  intro t ht hni
  unfold timer_interrupt_mlfqs at ht
  by_cases hf : (s.ticks + 1) % freq = 0
  · simp only [hf, if_pos, if_true] at ht
    simp only [mlfqs_recalc_all, List.mem_map] at ht
    obtain ⟨u, _, rfl⟩ := ht
    exact mlfqs_recalc_thread_formula _ _ _ hni
  · simp only [hf, if_false, if_neg, ite_false, h4, ite_true, if_pos] at ht
    simp only [mlfqs_recalc_all, List.mem_map] at ht
    obtain ⟨u, _, rfl⟩ := ht
    exact mlfqs_recalc_thread_formula _ _ _ hni

/-- Default thread descriptor used to build concrete test states. -/
def baseThread : Thread :=
  { priority := 31, base_priority := 31, eff_priority := 31, wait_on_lock := none,
    donations := [], waiting_lock := none, donators := [], held_locks := [],
    wake_tick := 0, nice := 0, recent_cpu := 0, status := TStatus.running,
    isIdle := false }

/-- Concrete MLFQS state at tick 3 (the next tick is 4): one non-idle
running thread with recent_cpu = 5 * F + 123 and nice = 1. -/
def c7_state : MState :=
  { ticks := 3, load_avg := 0,
    all_list := [{ baseThread with nice := 1, recent_cpu := 5 * F + 123 }],
    cur := 0, ready_threads := 1 }

/-- Witness for mlfqs_priority_every_4_ticks at c7_state: the tick
increment brings recent_cpu to 6 * F + 123, and the 4-tick pass leaves the
thread at priority 63 - ((6*F+123)/4)/F - 2*1 = 60, matching the spec
formula. -/
theorem mlfqs_priority_every_4_ticks_witness :
    ((timer_interrupt_mlfqs 100 c7_state).all_list.map Thread.priority = [60] ∧
      mlfqs_spec_priority (6 * F + 123) 1 = 60) ∧
    (∀ t ∈ (timer_interrupt_mlfqs 100 c7_state).all_list, ¬ t.isIdle →
      t.priority = mlfqs_spec_priority t.recent_cpu t.nice) :=
  ⟨by decide, mlfqs_priority_every_4_ticks 100 c7_state (by decide)⟩

/-- Claim C9: when page allocation fails, thread_create returns the
TID_ERROR sentinel and the scheduler state is byte-for-byte unchanged: the
failure return precedes init_thread (so no registration in all_list),
allocate_tid (so the tid counter does not advance) and thread_unblock (so
the ready queue is untouched). -/
theorem thread_create_alloc_fail_clean (priority : Int) (s : CState) :
    (thread_create false priority s).1 = TID_ERROR ∧
    (thread_create false priority s).2.next_tid = s.next_tid ∧
    (thread_create false priority s).2.all_list = s.all_list ∧
    (thread_create false priority s).2.ready = s.ready ∧
    (thread_create false priority s).2 = s := by
  unfold thread_create
  simp

/-- Clamp of the nice argument as thread_set_nice performs it. -/
theorem set_nice_clamp_eq (n : Int) :
    (if n < -20 then (-20 : Int) else if n > 20 then (20 : Int) else n)
      = max (-20) (min 20 n) := by
  split
  · omega
  · split <;> omega

/-- Claim C10: thread_set_nice consults the scheduler mode nowhere: for
either value of the thread_mlfqs flag it produces the identical thread,
stores the argument clamped to -20..20, and (for a non-idle caller)
immediately overwrites the caller's priority with the MLFQS formula
applied to the caller's recent_cpu and the new nice — regardless of what
set_priority or donation had established in the priority field. -/
theorem thread_set_nice_ignores_mode (m : Bool) (cur : Thread) (n : Int)
    (h : ¬ cur.isIdle) :
    thread_set_nice m cur n = thread_set_nice (!m) cur n ∧
    (thread_set_nice m cur n).nice = max (-20) (min 20 n) ∧
    (thread_set_nice m cur n).priority
      = mlfqs_spec_priority cur.recent_cpu (max (-20) (min 20 n)) := by
  refine ⟨rfl, ?_, ?_⟩
  · unfold thread_set_nice
    rw [mlfqs_priority_nice]
    exact set_nice_clamp_eq n
  · unfold thread_set_nice
    have hni : ¬ ({ cur with
        nice := if n < -20 then (-20 : Int) else if n > 20 then (20 : Int) else n } :
        Thread).isIdle := h
    rw [mlfqs_priority_formula _ hni]
    show mlfqs_spec_priority cur.recent_cpu
        (if n < -20 then (-20 : Int) else if n > 20 then (20 : Int) else n)
      = mlfqs_spec_priority cur.recent_cpu (max (-20) (min 20 n))
    rw [set_nice_clamp_eq]

/-- Witness for thread_set_nice_ignores_mode: a non-idle caller whose
priority was 50 (for example via donation or set_priority), recent_cpu
4 * F, under the default scheduler (thread_mlfqs false), calling
set_nice 100: nice is clamped to 20 and the priority is overwritten to
63 - 1 - 40 = 22. -/
theorem thread_set_nice_ignores_mode_witness :
    (thread_set_nice false { baseThread with priority := 50, recent_cpu := 4 * F } 100).nice
        = 20 ∧
    (thread_set_nice false { baseThread with priority := 50, recent_cpu := 4 * F } 100).priority
        = 22 ∧
    (thread_set_nice false { baseThread with priority := 50, recent_cpu := 4 * F } 100).priority
      = mlfqs_spec_priority (4 * F) (max (-20) (min 20 100)) := by
  refine ⟨by decide, by decide, ?_⟩
  exact (thread_set_nice_ignores_mode false
    { baseThread with priority := 50, recent_cpu := 4 * F } 100 (by decide)).2.2

theorem mem_insertOrderedBy (less : α → α → Bool) (x : α) :
    ∀ (l : List α) (y : α), y ∈ insertOrderedBy less x l ↔ y = x ∨ y ∈ l := by
  intro l
  induction l with
  | nil => intro y; simp [insertOrderedBy]
  | cons z zs ih =>
    intro y
    unfold insertOrderedBy
    split
    · simp
    · simp only [List.mem_cons, ih]
      tauto

theorem insertOrderedBy_ne_nil (less : α → α → Bool) (x : α) (l : List α) :
    insertOrderedBy less x l ≠ [] := by
  cases l with
  | nil => simp [insertOrderedBy]
  | cons z zs =>
    unfold insertOrderedBy
    split <;> simp

theorem pairwise_insertOrderedBy (k : α → Int) (less : α → α → Bool)
    (hr : ∀ a b, less a b = true ↔ k a < k b) (x : α) :
    ∀ l : List α, l.Pairwise (fun a b => k a ≤ k b) →
      (insertOrderedBy less x l).Pairwise (fun a b => k a ≤ k b) := by
  intro l
  induction l with
  | nil => intro _; simp [insertOrderedBy]
  | cons z zs ih =>
    intro hp
    rw [List.pairwise_cons] at hp
    unfold insertOrderedBy
    split
    · rename_i hlt
      rw [hr] at hlt
      refine List.Pairwise.cons ?_ (List.Pairwise.cons hp.1 hp.2)
      intro b hb
      rcases List.mem_cons.mp hb with rfl | hb2
      · omega
      · have := hp.1 b hb2
        omega
    · rename_i hge
      have hzx : k z ≤ k x := by
        by_contra hc
        exact hge ((hr x z).mpr (by omega))
      refine List.Pairwise.cons ?_ (ih hp.2)
      intro b hb
      rcases (mem_insertOrderedBy less x zs b).mp hb with rfl | hb2
      · exact hzx
      · exact hp.1 b hb2

theorem timer_wake_take_drop (now : Int) :
    ∀ sl : List Sleeper,
      (timer_wake now sl).2 = sl.takeWhile (fun t => decide (t.wake_tick ≤ now)) ∧
      (timer_wake now sl).1 = sl.dropWhile (fun t => decide (t.wake_tick ≤ now)) := by
  intro sl
  induction sl with
  | nil => simp [timer_wake]
  | cons t rest ih =>
    unfold timer_wake
    by_cases h : t.wake_tick > now
    · rw [if_pos h]
      have hd : (decide (t.wake_tick ≤ now)) = false := by
        simp; omega
      simp [List.takeWhile, List.dropWhile, hd]
    · rw [if_neg h]
      have hd : (decide (t.wake_tick ≤ now)) = true := by
        simp; omega
      simp [List.takeWhile, List.dropWhile, hd, ih]

/-- Claim C6: timer_sleep with a non-positive argument returns at once
without blocking and without touching the sleep list; with a positive
argument it blocks after inserting the caller with absolute wake tick
now + ticks, preserving the ascending wake_tick order of the sleep list;
and each timer interrupt pops and unblocks exactly the maximal due prefix
of the sleep list (the sleepers at the head with wake_tick ≤ now), so no
sleeper is ever woken before its absolute deadline. -/
theorem timer_sleep_wake_correct (now ticks : Int) (tid : Nat) (sl : List Sleeper)
    (hsorted : sl.Pairwise (fun a b => a.wake_tick ≤ b.wake_tick)) :
    (ticks ≤ 0 → timer_sleep now ticks tid sl = (sl, false)) ∧
    (0 < ticks →
      (timer_sleep now ticks tid sl).2 = true ∧
      ({ tid := tid, wake_tick := now + ticks } : Sleeper) ∈ (timer_sleep now ticks tid sl).1 ∧
      (timer_sleep now ticks tid sl).1.Pairwise (fun a b => a.wake_tick ≤ b.wake_tick)) ∧
    ((timer_wake now sl).2 = sl.takeWhile (fun t => decide (t.wake_tick ≤ now)) ∧
      (timer_wake now sl).1 = sl.dropWhile (fun t => decide (t.wake_tick ≤ now))) ∧
    (∀ t ∈ (timer_wake now sl).2, t.wake_tick ≤ now) := by
  refine ⟨?_, ?_, timer_wake_take_drop now sl, ?_⟩
  · intro h
    unfold timer_sleep
    rw [if_pos h]
  · intro h
    have hnle : ¬ ticks ≤ 0 := by omega
    unfold timer_sleep
    rw [if_neg hnle]
    refine ⟨rfl, ?_, ?_⟩
    · exact (mem_insertOrderedBy sleep_less _ sl _).mpr (Or.inl rfl)
    · exact pairwise_insertOrderedBy (fun t => t.wake_tick) sleep_less
        (fun a b => by simp [sleep_less]) _ sl hsorted
  · intro t ht
    rw [(timer_wake_take_drop now sl).1] at ht
    have := List.mem_takeWhile_imp ht
    simpa using this

/-- Witness for timer_sleep_wake_correct on concrete data: sleeping for -3
ticks at tick 100 leaves the sorted sleep list [105, 110] untouched and
does not block; sleeping for 7 ticks inserts wake tick 107 in order; at
tick 106 the interrupt wakes exactly the head sleeper due at 105. -/
theorem timer_sleep_wake_correct_witness :
    timer_sleep 100 (-3) 5 [⟨1, 105⟩, ⟨2, 110⟩] = ([⟨1, 105⟩, ⟨2, 110⟩], false) ∧
    (timer_sleep 100 7 3 [⟨1, 105⟩, ⟨2, 110⟩]).1 = [⟨1, 105⟩, ⟨3, 107⟩, ⟨2, 110⟩] ∧
    (timer_wake 106 [(⟨1, 105⟩ : Sleeper), ⟨3, 107⟩, ⟨2, 110⟩]).2 = [⟨1, 105⟩] := by
  refine ⟨?_, by decide, by decide⟩
  exact (timer_sleep_wake_correct 100 (-3) 5 [⟨1, 105⟩, ⟨2, 110⟩] (by decide)).1 (by decide)

/-- Counterexample to claim C4 as stated: inside an interrupt handler,
thread_unblock sets the yield-on-return flag unconditionally, so the flag
is set even though the newly-ready thread's priority 5 does not exceed the
current thread's priority 10 — the yield is not "exactly when" the new
thread outranks the current one. -/
theorem unblock_yield_iff_refuted :
    ¬ (((thread_unblock true 10 5 [] false).yield_flag = true) ↔ ((5 : Int) > 10)) := by
  decide

/-- Claim C4 (amended): in normal context thread_unblock yields immediately
exactly when the unblocked thread's priority exceeds the current thread's
and leaves the yield-on-return flag alone; inside an interrupt handler it
requests yield-on-return unconditionally (whatever the priorities) and
never yields immediately.  thread_create (normal context) yields exactly
when the new thread's priority exceeds the current thread's. -/
theorem unblock_yield_behavior (inIntr : Bool) (curPr tPr : Int)
    (ready : List Int) (flag : Bool) :
    (thread_unblock inIntr curPr tPr ready flag).ready
        = insertOrderedBy compare_thread_priority tPr ready ∧
    (inIntr = true →
      (thread_unblock inIntr curPr tPr ready flag).yield_flag = true ∧
      (thread_unblock inIntr curPr tPr ready flag).yielded = false) ∧
    (inIntr = false →
      (thread_unblock inIntr curPr tPr ready flag).yield_flag = flag ∧
      ((thread_unblock inIntr curPr tPr ready flag).yielded = true ↔ tPr > curPr)) ∧
    (thread_create_yields curPr tPr ready = true ↔ tPr > curPr) := by
  unfold thread_unblock thread_create_yields thread_unblock
  refine ⟨?_, ?_, ?_, ?_⟩
  · split <;> [rfl; (split <;> rfl)]
  · intro h
    subst h
    simp
  · intro h
    subst h
    simp only [Bool.false_eq_true, if_false]
    split <;> rename_i hgt <;> simp_all
  · simp only [Bool.false_eq_true, if_false]
    split <;> rename_i hgt <;> simp_all

/-- Witness for unblock_yield_behavior: unblocking a priority-40 thread
while a priority-31 thread runs, in normal context with the flag clear,
yields immediately; and thread_create of a priority-20 thread under a
priority-31 current thread does not yield. -/
theorem unblock_yield_behavior_witness :
    ((thread_unblock false 31 40 [] false).yielded = true ↔ (40 : Int) > 31) ∧
    (thread_create_yields 31 20 [] = true ↔ (20 : Int) > 31) :=
  ⟨((unblock_yield_behavior false 31 40 [] false).2.2.1 rfl).2,
   (unblock_yield_behavior false 31 20 [] false).2.2.2⟩

theorem mem_foldl_insertOrderedBy (r : α → α → Bool) :
    ∀ (l acc : List α) (y : α),
      (y ∈ l.foldl (fun a x => insertOrderedBy r x a) acc) ↔ y ∈ acc ∨ y ∈ l := by
  intro l
  induction l with
  | nil => simp
  | cons x xs ih =>
    intro acc y
    simp only [List.foldl_cons, ih, mem_insertOrderedBy, List.mem_cons]
    tauto

theorem mem_sortBy (r : α → α → Bool) (l : List α) (y : α) :
    y ∈ sortBy r l ↔ y ∈ l := by
  unfold sortBy
  rw [mem_foldl_insertOrderedBy]
  simp

theorem insertOrderedBy_headmax (k : α → Int) (r : α → α → Bool) (P : α → Prop)
    (hr : ∀ a b, P a → P b → (r a b = true ↔ k b < k a))
    (x : α) (hx : P x) (l : List α) (hP : ∀ y ∈ l, P y)
    (hm : ∀ h, l.head? = some h → ∀ y ∈ l, k y ≤ k h) :
    ∀ h, (insertOrderedBy r x l).head? = some h →
      ∀ y ∈ insertOrderedBy r x l, k y ≤ k h := by
  cases l with
  | nil =>
    intro h hh y hy
    simp only [insertOrderedBy, List.head?_cons, Option.some.injEq] at hh
    simp only [insertOrderedBy, List.mem_singleton] at hy
    rw [hy, hh]
  | cons z zs =>
    intro h hh y hy
    unfold insertOrderedBy at hh hy
    by_cases hc : r x z = true
    · rw [if_pos hc] at hh hy
      have hzx : k z < k x := (hr x z hx (hP z (List.mem_cons_self z zs))).mp hc
      simp only [List.head?_cons, Option.some.injEq] at hh
      rw [← hh]
      rcases List.mem_cons.mp hy with rfl | hy2
      · exact le_refl _
      · have := hm z rfl y hy2
        omega
    · rw [if_neg hc] at hh hy
      have hxz : k x ≤ k z := by
        by_contra hlt
        exact hc ((hr x z hx (hP z (List.mem_cons_self z zs))).mpr (by omega))
      simp only [List.head?_cons, Option.some.injEq] at hh
      rw [← hh]
      rcases List.mem_cons.mp hy with rfl | hy2
      · exact le_refl _
      · rcases (mem_insertOrderedBy r x zs y).mp hy2 with rfl | hy3
        · exact hxz
        · exact hm z rfl y (List.mem_cons_of_mem _ hy3)

theorem sortBy_headmax (k : α → Int) (r : α → α → Bool) (P : α → Prop)
    (hr : ∀ a b, P a → P b → (r a b = true ↔ k b < k a)) :
    ∀ (l acc : List α), (∀ y ∈ l, P y) → (∀ y ∈ acc, P y) →
      (∀ h, acc.head? = some h → ∀ y ∈ acc, k y ≤ k h) →
      ∀ h, (l.foldl (fun a x => insertOrderedBy r x a) acc).head? = some h →
        ∀ y ∈ l.foldl (fun a x => insertOrderedBy r x a) acc, k y ≤ k h := by
  intro l
  induction l with
  | nil => intro acc _ _ hm; exact hm
  | cons x xs ih =>
    intro acc hPl hPacc hm
    simp only [List.foldl_cons]
    have hPacc2 : ∀ y ∈ insertOrderedBy r x acc, P y := by
      intro y hy
      rcases (mem_insertOrderedBy r x acc y).mp hy with hxy | hy2
      · rw [hxy]; exact hPl x (List.mem_cons_self x xs)
      · exact hPacc y hy2
    exact ih (insertOrderedBy r x acc)
      (fun y hy => hPl y (List.mem_cons_of_mem _ hy)) hPacc2
      (insertOrderedBy_headmax k r P hr x (hPl x (List.mem_cons_self x xs)) acc hPacc hm)

/-- Current effective priority of the front waiter of a condition-variable
entry (0 for an empty entry, which the comparator sorts last). -/
def frontEff (eff : Nat → Int) (e : SemElem) : Int :=
  match e.waiters.head? with
  | some t => eff t
  | none => 0

theorem cond_compare_key (eff : Nat → Int) (a b : SemElem)
    (ha : a.waiters ≠ []) (hb : b.waiters ≠ []) :
    (cond_sema_priority_compare eff a b = true ↔ frontEff eff b < frontEff eff a) := by
  rcases a with ⟨wa⟩
  rcases b with ⟨wb⟩
  cases wa with
  | nil => exact absurd rfl ha
  | cons x xs =>
    cases wb with
    | nil => exact absurd rfl hb
    | cons y ys =>
      simp [cond_sema_priority_compare, frontEff]

/-- Counterexample to claim C5 as stated: no priority is recorded at
enqueue time and cond_signal selects by the priorities current at signal
time.  Thread 1 enqueues while its effective priority is 30, thread 2
enqueues with priority 10; by signal time thread 1 has dropped to 5.  The
spec's recorded-priority discipline wakes thread 1 (recorded 30 > 10), but
the code wakes thread 2 (current 10 > 5). -/
theorem cond_recorded_priority_refuted :
    (cond_signal (fun i => if i = 1 then 5 else if i = 2 then 10 else 0)
        (cond_wait (cond_wait [] 1) 2)).1 = some 2 ∧
    (spec_cond_signal (spec_cond_wait (spec_cond_wait [] 1 30) 2 10)).1 = some 1 ∧
    ¬ ((cond_signal (fun i => if i = 1 then 5 else if i = 2 then 10 else 0)
          (cond_wait (cond_wait [] 1) 2)).1
        = (spec_cond_signal (spec_cond_wait (spec_cond_wait [] 1 30) 2 10)).1) := by
  refine ⟨by decide, by decide, by decide⟩

/-- Claim C5 (amended): cond_wait appends an untagged zero-valued
single-slot semaphore, whose sole waiter is the caller, to the back of
cond.waiters — no priority is recorded and no ordering is maintained at
enqueue time; cond_signal sorts the entries at signal time by the current
eff_priority of each entry's front waiter and wakes the waiter whose
current eff_priority is highest. -/
theorem cond_signal_wakes_highest_current (eff : Nat → Int) (cv : List SemElem)
    (hne : cv ≠ []) (hw : ∀ e ∈ cv, e.waiters ≠ []) :
    (∀ tid, cond_wait cv tid = cv ++ [{ waiters := [tid] }]) ∧
    (∃ w, (cond_signal eff cv).1 = some w ∧
      (∃ e ∈ cv, e.waiters.head? = some w) ∧
      (∀ e ∈ cv, ∀ f, e.waiters.head? = some f → eff f ≤ eff w)) := by
  refine ⟨fun tid => rfl, ?_⟩
  have hmem : ∀ y ∈ sortBy (cond_sema_priority_compare eff) cv, y ∈ cv :=
    fun y hy => (mem_sortBy _ cv y).mp hy
  cases hs : sortBy (cond_sema_priority_compare eff) cv with
  | nil =>
    exfalso
    cases cv with
    | nil => exact hne rfl
    | cons c cs =>
      have : c ∈ sortBy (cond_sema_priority_compare eff) (c :: cs) :=
        (mem_sortBy _ _ c).mpr (List.mem_cons_self c cs)
      rw [hs] at this
      exact absurd this (List.not_mem_nil c)
  | cons e rest =>
    have hec : e ∈ cv := by
      have : e ∈ sortBy (cond_sema_priority_compare eff) cv := by
        rw [hs]; exact List.mem_cons_self e rest
      exact hmem e this
    have hew : e.waiters ≠ [] := hw e hec
    cases hwd : e.waiters with
    | nil => exact absurd hwd hew
    | cons w ws =>
      have hsf : List.foldl (fun a x => insertOrderedBy (cond_sema_priority_compare eff) x a)
          [] cv = e :: rest := hs
      refine ⟨w, ?_, ⟨e, hec, by rw [hwd]; rfl⟩, ?_⟩
      · unfold cond_signal
        rw [hs]
        simp [hwd]
      · intro e2 he2 f hf
        have hmax := sortBy_headmax (frontEff eff) (cond_sema_priority_compare eff)
          (fun a => a.waiters ≠ []) (cond_compare_key eff) cv [] hw
          (by intro y hy; exact absurd hy (List.not_mem_nil y))
          (by intro h hh; simp at hh)
        have he2s : e2 ∈ sortBy (cond_sema_priority_compare eff) cv :=
          (mem_sortBy _ cv e2).mpr he2
        have hkey := hmax e (by rw [hsf]; rfl) e2 (by
          show e2 ∈ List.foldl
            (fun a x => insertOrderedBy (cond_sema_priority_compare eff) x a) [] cv
          exact he2s)
        have h1 : frontEff eff e2 = eff f := by unfold frontEff; rw [hf]
        have h2 : frontEff eff e = eff w := by
          unfold frontEff
          rw [hwd]
          rfl
        rw [h1, h2] at hkey
        exact hkey

/-- Witness for cond_signal_wakes_highest_current: two waiters with current
effective priorities 5 (thread 1) and 10 (thread 2); the signal wakes
thread 2, the highest current effective priority. -/
theorem cond_signal_wakes_highest_current_witness :
    (cond_signal (fun i => if i = 1 then 5 else if i = 2 then 10 else 0)
        [⟨[1]⟩, ⟨[2]⟩]).1 = some 2 ∧
    (∃ w, (cond_signal (fun i => if i = 1 then 5 else if i = 2 then 10 else 0)
        [⟨[1]⟩, ⟨[2]⟩]).1 = some w ∧
      (∃ e ∈ ([⟨[1]⟩, ⟨[2]⟩] : List SemElem), e.waiters.head? = some w) ∧
      (∀ e ∈ ([⟨[1]⟩, ⟨[2]⟩] : List SemElem), ∀ f, e.waiters.head? = some f →
        (fun i => if i = 1 then (5 : Int) else if i = 2 then 10 else 0) f
          ≤ (fun i => if i = 1 then (5 : Int) else if i = 2 then 10 else 0) w)) :=
  ⟨by decide,
   (cond_signal_wakes_highest_current (fun i => if i = 1 then 5 else if i = 2 then 10 else 0)
      [⟨[1]⟩, ⟨[2]⟩] (by decide) (by decide)).2⟩

theorem updThr_thr (s : KS) (i : Nat) (f : Thread → Thread) (j : Nat) :
    (updThr s i f).thr j = if j = i then f (s.thr j) else s.thr j := rfl

theorem updThr_lock (s : KS) (i : Nat) (f : Thread → Thread) :
    (updThr s i f).lock = s.lock := rfl

theorem updLock_thr (s : KS) (i : Nat) (f : LockSt → LockSt) :
    (updLock s i f).thr = s.thr := rfl

theorem updLock_lock (s : KS) (i : Nat) (f : LockSt → LockSt) (j : Nat) :
    (updLock s i f).lock j = if j = i then f (s.lock j) else s.lock j := rfl

theorem updThr_proj {β : Type _} (g : Thread → β) (s : KS) (j : Nat)
    (f : Thread → Thread) (hf : ∀ t, g (f t) = g t) (i : Nat) :
    g ((updThr s j f).thr i) = g (s.thr i) := by
  rw [updThr_thr]
  by_cases h : i = j
  · rw [if_pos h, hf]
  · rw [if_neg h]

theorem recompute_lock (s : KS) (i : Nat) :
    (recompute_eff_priority s i).lock = s.lock := rfl

theorem propagate_lock (fuel : Nat) :
    ∀ (s : KS) (cur : Nat), (propagate_eff_priority s cur fuel).lock = s.lock := by
  induction fuel with
  | zero => intro s cur; rfl
  | succ f ih =>
    intro s cur
    unfold propagate_eff_priority
    cases hw : (s.thr cur).waiting_lock with
    | none => rfl
    | some lid =>
      simp only
      cases hh : (s.lock lid).holder with
      | none => simp only [hh]
      | some h =>
        simp only [hh]
        split
        · rfl
        · split
          · rfl
          · rw [ih]
            rfl

theorem donators_reinsert_lock (s : KS) (cur h : Nat) :
    (donators_reinsert s cur h).lock = s.lock := rfl

theorem donators_reinsert_thr_ne (s : KS) (cur h i : Nat) (hi : i ≠ h) :
    (donators_reinsert s cur h).thr i = s.thr i := by
  unfold donators_reinsert
  rw [updThr_thr, if_neg hi, updThr_thr, if_neg hi]

theorem donators_reinsert_thr_h (s : KS) (cur h : Nat) :
    (donators_reinsert s cur h).thr h
      = { s.thr h with
          donators :=
            insertOrderedBy
              (higher_priority_donate
                (updThr s h fun t => { t with donators := t.donators.erase cur }))
              cur ((s.thr h).donators.erase cur) } := by
  unfold donators_reinsert
  rw [updThr_thr, if_pos rfl, updThr_thr, if_pos rfl]

theorem donators_reinsert_proj {β : Type _} (g : Thread → β)
    (hdon : ∀ t d, g { t with donators := d } = g t) (s : KS) (cur h i : Nat) :
    g ((donators_reinsert s cur h).thr i) = g (s.thr i) := by
  unfold donators_reinsert
  rw [updThr_proj g _ _ _ (fun t => hdon _ _), updThr_proj g _ _ _ (fun t => hdon _ _)]

theorem recompute_thr_eq (s : KS) (j : Nat) :
    (recompute_eff_priority s j).thr j
      = { s.thr j with eff_priority := effMaxOf s (s.thr j) } := by
  unfold recompute_eff_priority
  rw [updThr_thr, if_pos rfl]

theorem recompute_thr_ne (s : KS) (j i : Nat) (hi : i ≠ j) :
    (recompute_eff_priority s j).thr i = s.thr i := by
  unfold recompute_eff_priority
  rw [updThr_thr, if_neg hi]

theorem propagate_proj {β : Type _} (g : Thread → β)
    (hdon : ∀ t d, g { t with donators := d } = g t)
    (heff : ∀ t e, g { t with eff_priority := e } = g t) (fuel : Nat) :
    ∀ (s : KS) (cur i : Nat),
      g ((propagate_eff_priority s cur fuel).thr i) = g (s.thr i) := by
  induction fuel with
  | zero => intro s cur i; rfl
  | succ f ih =>
    intro s cur i
    unfold propagate_eff_priority
    cases hw : (s.thr cur).waiting_lock with
    | none => rfl
    | some lid =>
      simp only
      cases hh : (s.lock lid).holder with
      | none => simp only [hh]
      | some h =>
        simp only [hh]
        split
        · rw [donators_reinsert_proj g hdon]
        · split
          · show g ((recompute_eff_priority _ _).thr i) = _
            unfold recompute_eff_priority
            rw [updThr_proj g _ _ _ (fun t => heff _ _), donators_reinsert_proj g hdon]
          · rw [ih]
            show g ((recompute_eff_priority _ _).thr i) = _
            unfold recompute_eff_priority
            rw [updThr_proj g _ _ _ (fun t => heff _ _), donators_reinsert_proj g hdon]

theorem propagate_stop (s : KS) (cur : Nat) (fuel : Nat)
    (h : (s.thr cur).waiting_lock = none) :
    propagate_eff_priority s cur fuel = s := by
  cases fuel with
  | zero => rfl
  | succ f =>
    unfold propagate_eff_priority
    rw [h]

theorem foldl_effmax_ge_init (s : KS) :
    ∀ (l : List Nat) (a : Int),
      a ≤ l.foldl
        (fun m d => if (s.thr d).eff_priority > m then (s.thr d).eff_priority else m) a := by
  intro l
  induction l with
  | nil => intro a; exact le_refl a
  | cons x xs ih =>
    intro a
    simp only [List.foldl_cons]
    have h1 : a ≤ if (s.thr x).eff_priority > a then (s.thr x).eff_priority else a := by
      split <;> omega
    exact le_trans h1 (ih _)

theorem foldl_effmax_ge_mem (s : KS) :
    ∀ (l : List Nat) (a : Int) (d : Nat), d ∈ l →
      (s.thr d).eff_priority ≤ l.foldl
        (fun m e => if (s.thr e).eff_priority > m then (s.thr e).eff_priority else m) a := by
  intro l
  induction l with
  | nil => intro a d hd; exact absurd hd (List.not_mem_nil d)
  | cons x xs ih =>
    intro a d hd
    simp only [List.foldl_cons]
    rcases List.mem_cons.mp hd with rfl | hd2
    · have h1 : (s.thr d).eff_priority
          ≤ if (s.thr d).eff_priority > a then (s.thr d).eff_priority else a := by
        split <;> omega
      exact le_trans h1 (foldl_effmax_ge_init s xs _)
    · exact ih _ d hd2

theorem le_effMaxOf_of_mem (s : KS) (t : Thread) (d : Nat) (hd : d ∈ t.donators) :
    (s.thr d).eff_priority ≤ effMaxOf s t :=
  foldl_effmax_ge_mem s t.donators t.base_priority d hd

theorem effMaxOf_nil (s : KS) (t : Thread) (h : t.donators = []) :
    effMaxOf s t = t.base_priority := by
  unfold effMaxOf
  rw [h]
  rfl

theorem sema_up_proj {β : Type _} (g : Thread → β)
    (hst : ∀ t st, g { t with status := st } = g t)
    (s : KS) (lid i : Nat) :
    g ((sema_up s lid).thr i) = g (s.thr i) := by
  unfold sema_up
  cases hs : sortBy (thread_priority_compare s) (s.lock lid).waiters with
  | nil =>
    simp only [hs]
    rw [updLock_thr]
  | cons nxt rest =>
    simp only [hs]
    rw [updLock_thr, updThr_proj g _ _ _ (fun t => hst _ _), updLock_thr]

theorem lock_acquire_proj {β : Type _} (g : Thread → β)
    (hdon : ∀ t d, g { t with donators := d } = g t)
    (heff : ∀ t e, g { t with eff_priority := e } = g t)
    (hwl : ∀ t w, g { t with waiting_lock := w } = g t)
    (hst : ∀ t st, g { t with status := st } = g t)
    (hheld : ∀ t hl, g { t with held_locks := hl } = g t)
    (m : Bool) (s : KS) (cur lid i : Nat) :
    g ((lock_acquire m s cur lid).thr i) = g (s.thr i) := by
  unfold lock_acquire
  cases hh : (s.lock lid).holder with
  | some h =>
    simp only [hh]
    rw [updThr_proj g _ _ _ (fun t => hst _ _), updLock_thr,
        propagate_proj g hdon heff,
        updThr_proj g _ _ _ (fun t => hdon _ _),
        updThr_proj g _ _ _ (fun t => hwl _ _)]
  | none =>
    simp only [hh]
    rw [updThr_proj g _ _ _ (fun t => hheld _ _), updLock_thr,
        updThr_proj g _ _ _ (fun t => hwl _ _), updLock_thr]

theorem lock_release_proj {β : Type _} (g : Thread → β)
    (hdon : ∀ t d, g { t with donators := d } = g t)
    (heff : ∀ t e, g { t with eff_priority := e } = g t)
    (hst : ∀ t st, g { t with status := st } = g t)
    (hheld : ∀ t hl, g { t with held_locks := hl } = g t)
    (s : KS) (cur lid i : Nat) :
    g ((lock_release s cur lid).thr i) = g (s.thr i) := by
  unfold lock_release
  rw [sema_up_proj g hst, updLock_thr, updThr_proj g _ _ _ (fun t => hheld _ _)]
  split
  · rfl
  · show g ((recompute_eff_priority (remove_donators_related_lock s cur lid) cur).thr i)
        = g (s.thr i)
    unfold recompute_eff_priority remove_donators_related_lock
    rw [updThr_proj g _ _ _ (fun t => heff _ _),
        updThr_proj g _ _ _ (fun t => hdon _ _)]

/-- Claim C1 (amended): the live lock_acquire and lock_release code paths
implement donation through the separate-field effective-priority variant
(propagate_eff_priority, recompute_eff_priority, writing eff_priority with
base_priority preserved): no acquire and no release ever writes any
thread's priority or base_priority field, so the refresh-priority variant
that overwrites the single priority field (refresh_priority and
donate_priority_chain of threads/thread.c, which no acquire or release
invokes) is not what runs on these paths. -/
theorem lock_paths_use_eff_priority_variant (m : Bool) (s : KS) (cur lid i : Nat) :
    ((lock_acquire m s cur lid).thr i).priority = (s.thr i).priority ∧
    ((lock_acquire m s cur lid).thr i).base_priority = (s.thr i).base_priority ∧
    ((lock_release s cur lid).thr i).priority = (s.thr i).priority ∧
    ((lock_release s cur lid).thr i).base_priority = (s.thr i).base_priority := by
  refine ⟨?_, ?_, ?_, ?_⟩
  · exact lock_acquire_proj (fun t => t.priority)
      (fun t d => rfl) (fun t e => rfl) (fun t w => rfl) (fun t st => rfl) (fun t hl => rfl)
      m s cur lid i
  · exact lock_acquire_proj (fun t => t.base_priority)
      (fun t d => rfl) (fun t e => rfl) (fun t w => rfl) (fun t st => rfl) (fun t hl => rfl)
      m s cur lid i
  · exact lock_release_proj (fun t => t.priority)
      (fun t d => rfl) (fun t e => rfl) (fun t st => rfl) (fun t hl => rfl) s cur lid i
  · exact lock_release_proj (fun t => t.base_priority)
      (fun t d => rfl) (fun t e => rfl) (fun t st => rfl) (fun t hl => rfl) s cur lid i

/-- Concrete kernel state for the donation counterexamples: thread 0 holds
lock 0 with base, priority and eff_priority all 10; thread 1 (priority and
eff_priority 30) is about to acquire lock 0. -/
def c1_holder : Thread :=
  { baseThread with priority := 10, base_priority := 10, eff_priority := 10,
                    held_locks := [0] }

def c1_waiter : Thread :=
  { baseThread with priority := 30, base_priority := 30, eff_priority := 30 }

def c1_state : KS :=
  { thr := fun i => if i = 0 then c1_holder else if i = 1 then c1_waiter else baseThread,
    lock := fun j => { holder := some 0, value := 0, waiters := [] } }

/-- Counterexample to claim C1 as stated: when thread 1 (priority 30)
acquires the lock held by thread 0 (priority 10), the live path raises the
holder's separate eff_priority field to 30 but leaves the priority field at
10, whereas the refresh-priority variant the spec adopts (modelled from the
spec as spec_lock_acquire_blocked) would overwrite the holder's priority
field with 30 — the live donation does not go through the single-priority-
field variant. -/
theorem lock_acquire_refresh_variant_refuted :
    ((lock_acquire false c1_state 1 0).thr 0).eff_priority = 30 ∧
    ((lock_acquire false c1_state 1 0).thr 0).priority = 10 ∧
    ((spec_lock_acquire_blocked c1_state 1 0).thr 0).priority = 30 ∧
    ¬ (((lock_acquire false c1_state 1 0).thr 0).priority
        = ((spec_lock_acquire_blocked c1_state 1 0).thr 0).priority) := by
  refine ⟨by decide, by decide, by decide, by decide⟩

/-- Concrete kernel state for the try-acquire counterexample: lock 0 is
free (semaphore value 1, no holder) and every thread's held_locks is
empty. -/
def c3_state : KS :=
  { thr := fun i => baseThread,
    lock := fun j => { holder := none, value := 1, waiters := [] } }

/-- Counterexample to claim C3 as stated: lock_try_acquire succeeds on the
free lock 0 and records thread 1 as holder, but does not append the lock to
thread 1's held_locks, so the holder/held_locks correspondence is broken by
this operation: lock 0 has holder thread 1 while 0 is not an element of
thread 1's held_locks. -/
theorem try_acquire_held_locks_refuted :
    (lock_try_acquire c3_state 1 0).2 = true ∧
    ((lock_try_acquire c3_state 1 0).1.lock 0).holder = some 1 ∧
    ((lock_try_acquire c3_state 1 0).1.thr 1).held_locks = [] ∧
    ¬ (0 ∈ ((lock_try_acquire c3_state 1 0).1.thr 1).held_locks) := by
  refine ⟨by decide, by decide, by decide, by decide⟩

/-- Claim C3 (amended): lock_acquire (on the uncontended path and at the
resumption after a blocking wait) records the caller as holder and appends
the lock to the caller's held_locks, and lock_release clears the holder and
removes the lock from the releasing thread's held_locks (its sole entry,
when held_locks has no duplicates) — but lock_try_acquire on success only
sets the holder and leaves every thread's held_locks unchanged, so the
holder/held_locks correspondence does not survive a successful
lock_try_acquire. -/
theorem lock_ops_holder_held_locks (m : Bool) (s : KS) (cur lid : Nat) :
    ((s.lock lid).holder = none →
      ((lock_acquire m s cur lid).lock lid).holder = some cur ∧
      lid ∈ ((lock_acquire m s cur lid).thr cur).held_locks) ∧
    (((lock_acquire_finish s cur lid).lock lid).holder = some cur ∧
      lid ∈ ((lock_acquire_finish s cur lid).thr cur).held_locks) ∧
    ((s.lock lid).value > 0 →
      (lock_try_acquire s cur lid).2 = true ∧
      ((lock_try_acquire s cur lid).1.lock lid).holder = some cur ∧
      (∀ i, ((lock_try_acquire s cur lid).1.thr i).held_locks = (s.thr i).held_locks)) ∧
    (((lock_release s cur lid).lock lid).holder = none ∧
      ((s.thr cur).held_locks.Nodup →
        lid ∉ ((lock_release s cur lid).thr cur).held_locks)) := by
  refine ⟨?_, ?_, ?_, ?_, ?_⟩
  · intro hfree
    unfold lock_acquire
    simp only [hfree]
    constructor
    · rw [updThr_lock, updLock_lock, updThr_lock, updLock_lock]
      simp
    · rw [updThr_thr]
      simp
  · unfold lock_acquire_finish
    constructor
    · rw [updThr_lock, updLock_lock]
      simp
    · rw [updThr_thr]
      simp
  · intro hval
    have h1 : sema_try_down s lid
        = (updLock s lid fun l => { l with value := l.value - 1 }, true) := by
      unfold sema_try_down
      rw [if_pos hval]
    have heq : lock_try_acquire s cur lid
        = (updLock (updLock s lid fun l => { l with value := l.value - 1 }) lid
            (fun l => { l with holder := some cur }), true) := by
      unfold lock_try_acquire
      rw [h1]
      rfl
    rw [heq]
    refine ⟨rfl, ?_, ?_⟩
    · simp [updLock_lock]
    · intro i
      rw [updLock_thr, updLock_thr]
  · unfold lock_release sema_up
    cases hsw : sortBy (thread_priority_compare
        (updLock (updThr (if (s.thr cur).donators = [] then s
            else recompute_eff_priority (remove_donators_related_lock s cur lid) cur)
          cur fun t => { t with held_locks := t.held_locks.erase lid }) lid
          fun l => { l with holder := none }))
        ((updLock (updThr (if (s.thr cur).donators = [] then s
            else recompute_eff_priority (remove_donators_related_lock s cur lid) cur)
          cur fun t => { t with held_locks := t.held_locks.erase lid }) lid
          fun l => { l with holder := none }).lock lid).waiters with
    | nil =>
      simp only [hsw]
      simp [updLock_lock, updThr_lock, updLock_thr]
    | cons nxt rest =>
      simp only [hsw]
      simp [updLock_lock, updThr_lock, updLock_thr]
  · intro hnd
    have hheld : ((lock_release s cur lid).thr cur).held_locks
        = (s.thr cur).held_locks.erase lid := by
      unfold lock_release
      rw [sema_up_proj (fun t => t.held_locks) (fun t st => rfl), updLock_thr]
      split
      · simp [updThr_thr]
      · simp [updThr_thr, recompute_eff_priority, remove_donators_related_lock]
    rw [hheld]
    intro hmem
    exact ((List.Nodup.mem_erase_iff hnd).mp hmem).1 rfl

/-- Witness for lock_ops_holder_held_locks at the concrete free-lock state
c3_state: thread 2 acquires lock 0 and the holder and held_locks agree;
releasing from a held state clears both sides. -/
theorem lock_ops_holder_held_locks_witness :
    ((lock_acquire false c3_state 2 0).lock 0).holder = some 2 ∧
    0 ∈ ((lock_acquire false c3_state 2 0).thr 2).held_locks ∧
    (lock_try_acquire c3_state 2 0).2 = true ∧
    ((lock_try_acquire c3_state 2 0).1.thr 2).held_locks = (c3_state.thr 2).held_locks ∧
    ((lock_release c3_state 2 0).lock 0).holder = none ∧
    ¬ (0 ∈ ((lock_release c3_state 2 0).thr 2).held_locks) := by
  have h := lock_ops_holder_held_locks false c3_state 2 0
  exact ⟨(h.1 (by decide)).1, (h.1 (by decide)).2, (h.2.2.1 (by decide)).1,
    (h.2.2.1 (by decide)).2.2 2, h.2.2.2.1, h.2.2.2.2 (by decide)⟩

/-- Counterexample to claim C2 as stated: with thread_mlfqs true, thread 1
(effective priority 30) acquiring the lock held by thread 0 (effective
priority 10) still donates: the waiter is inserted into the holder's
donators and the holder's effective priority is raised from 10 to 30 by the
waiter — lock_acquire performs donation under MLFQS because it never
consults the flag. -/
theorem lock_acquire_mlfqs_donation_refuted :
    ((lock_acquire true c1_state 1 0).thr 0).eff_priority = 30 ∧
    (1 ∈ ((lock_acquire true c1_state 1 0).thr 0).donators) ∧
    ¬ (((lock_acquire true c1_state 1 0).thr 0).eff_priority
        = (c1_state.thr 0).eff_priority) := by
  refine ⟨by decide, by decide, by decide⟩

theorem propagate_blocked_raises (s : KS) (cur lid h : Nat) (fuel : Nat)
    (hw : (s.thr cur).waiting_lock = some lid)
    (hh : (s.lock lid).holder = some h)
    (hwh : (s.thr h).waiting_lock = none)
    (hne : h ≠ cur)
    (hgt : (s.thr h).eff_priority < (s.thr cur).eff_priority) :
    cur ∈ ((propagate_eff_priority s cur (fuel + 1)).thr h).donators ∧
    (s.thr cur).eff_priority
      ≤ ((propagate_eff_priority s cur (fuel + 1)).thr h).eff_priority := by
  have hne2 : cur ≠ h := fun e => hne e.symm
  have hcur2 : (donators_reinsert s cur h).thr cur = s.thr cur :=
    donators_reinsert_thr_ne s cur h cur hne2
  have heffh : ((donators_reinsert s cur h).thr h).eff_priority
      = (s.thr h).eff_priority := by
    rw [donators_reinsert_thr_h]
  have hmem : cur ∈ ((donators_reinsert s cur h).thr h).donators := by
    rw [donators_reinsert_thr_h]
    exact (mem_insertOrderedBy _ cur _ cur).mpr (Or.inl rfl)
  have hle : (s.thr cur).eff_priority
      ≤ ((recompute_eff_priority (donators_reinsert s cur h) h).thr h).eff_priority := by
    rw [recompute_thr_eq]
    show (s.thr cur).eff_priority
      ≤ effMaxOf (donators_reinsert s cur h) ((donators_reinsert s cur h).thr h)
    rw [← hcur2]
    exact le_effMaxOf_of_mem _ _ cur hmem
  have hdonmem : cur ∈
      ((recompute_eff_priority (donators_reinsert s cur h) h).thr h).donators := by
    rw [recompute_thr_eq]
    exact hmem
  unfold propagate_eff_priority
  simp only [hw, hh]
  split
  · rename_i hcond
    rw [hcur2, heffh] at hcond
    omega
  · split
    · exact ⟨hdonmem, hle⟩
    · have hstop : ((recompute_eff_priority (donators_reinsert s cur h) h).thr
          h).waiting_lock = none := by
        rw [recompute_thr_eq]
        show ((donators_reinsert s cur h).thr h).waiting_lock = none
        rw [donators_reinsert_thr_h]
        exact hwh
      rw [propagate_stop _ _ _ hstop]
      exact ⟨hdonmem, hle⟩

theorem acquire_inner_raises (s s1 s2 : KS) (cur lid h : Nat)
    (hs1 : s1 = updThr s cur (fun t => { t with waiting_lock := some lid }))
    (hs2 : s2 = updThr s1 h (fun t =>
      { t with donators := insertOrderedBy (higher_priority_donate s1) cur t.donators }))
    (hh : (s.lock lid).holder = some h)
    (hne : h ≠ cur)
    (hwh : (s.thr h).waiting_lock = none)
    (hgt : (s.thr h).eff_priority < (s.thr cur).eff_priority) :
    cur ∈ ((propagate_eff_priority s2 cur DONATION_DEPTH_LIMIT).thr h).donators ∧
    (s.thr cur).eff_priority
      ≤ ((propagate_eff_priority s2 cur DONATION_DEPTH_LIMIT).thr h).eff_priority := by
  have hne2 : cur ≠ h := fun e => hne e.symm
  have hw2 : (s2.thr cur).waiting_lock = some lid := by
    rw [hs2, updThr_thr, if_neg hne2, hs1, updThr_thr, if_pos rfl]
  have hh2 : (s2.lock lid).holder = some h := by
    rw [hs2, updThr_lock, hs1, updThr_lock]
    exact hh
  have hwh2 : (s2.thr h).waiting_lock = none := by
    rw [hs2, updThr_thr, if_pos rfl, hs1, updThr_thr, if_neg hne]
    exact hwh
  have hceff : (s2.thr cur).eff_priority = (s.thr cur).eff_priority := by
    rw [hs2, updThr_thr, if_neg hne2, hs1, updThr_thr, if_pos rfl]
  have hheff : (s2.thr h).eff_priority = (s.thr h).eff_priority := by
    rw [hs2, updThr_thr, if_pos rfl, hs1, updThr_thr, if_neg hne]
  have hgt2 : (s2.thr h).eff_priority < (s2.thr cur).eff_priority := by
    rw [hceff, hheff]
    exact hgt
  have e8 : DONATION_DEPTH_LIMIT = 7 + 1 := rfl
  rw [e8]
  obtain ⟨h1, h2⟩ := propagate_blocked_raises s2 cur lid h 7 hw2 hh2 hwh2 hne hgt2
  rw [hceff] at h2
  exact ⟨h1, h2⟩

/-- Claim C2 (amended): lock_acquire consults thread_mlfqs nowhere, so with
MLFQS selected it behaves exactly as with the default scheduler: when the
caller blocks on a held lock it is inserted into the holder's donators and
the holder's eff_priority is raised at least to the waiter's effective
priority whenever the waiter outranks the holder — donation is not
bypassed; only the MLFQS-recomputed priority field is left alone (claim C1's
theorem), not the donation machinery. -/
theorem lock_acquire_donates_in_both_modes (m : Bool) (s : KS) (cur lid h : Nat)
    (hh : (s.lock lid).holder = some h)
    (hne : h ≠ cur)
    (hwh : (s.thr h).waiting_lock = none)
    (hgt : (s.thr h).eff_priority < (s.thr cur).eff_priority) :
    lock_acquire m s cur lid = lock_acquire true s cur lid ∧
    cur ∈ ((lock_acquire m s cur lid).thr h).donators ∧
    (s.thr cur).eff_priority ≤ ((lock_acquire m s cur lid).thr h).eff_priority := by
  refine ⟨rfl, ?_⟩
  unfold lock_acquire
  simp only [hh]
  rw [updThr_thr, if_neg hne, updLock_thr]
  exact acquire_inner_raises s _ _ cur lid h rfl rfl hh hne hwh hgt

/-- Witness for lock_acquire_donates_in_both_modes at c1_state with
thread_mlfqs being either value: the waiter (thread 1, effective priority
30) ends up in the holder's donators and the holder's eff_priority is at
least 30. -/
theorem lock_acquire_donates_in_both_modes_witness :
    lock_acquire false c1_state 1 0 = lock_acquire true c1_state 1 0 ∧
    1 ∈ ((lock_acquire false c1_state 1 0).thr 0).donators ∧
    (c1_state.thr 1).eff_priority
      ≤ ((lock_acquire false c1_state 1 0).thr 0).eff_priority :=
  lock_acquire_donates_in_both_modes false c1_state 1 0 0 (by decide) (by decide)
    (by decide) (by decide)

theorem propagate_blocked_donators (s : KS) (cur lid h : Nat) (fuel : Nat)
    (hw : (s.thr cur).waiting_lock = some lid)
    (hh : (s.lock lid).holder = some h)
    (hwh : (s.thr h).waiting_lock = none)
    (hne : h ≠ cur) :
    (∀ x ∈ ((propagate_eff_priority s cur (fuel + 1)).thr h).donators,
       x = cur ∨ x ∈ (s.thr h).donators) ∧
    ((propagate_eff_priority s cur (fuel + 1)).thr h).donators ≠ [] := by
  have hmemd : ∀ x ∈ ((donators_reinsert s cur h).thr h).donators,
      x = cur ∨ x ∈ (s.thr h).donators := by
    intro x hx
    rw [donators_reinsert_thr_h] at hx
    rcases (mem_insertOrderedBy _ cur _ x).mp hx with rfl | hx2
    · exact Or.inl rfl
    · exact Or.inr (List.mem_of_mem_erase hx2)
  have hned : ((donators_reinsert s cur h).thr h).donators ≠ [] := by
    rw [donators_reinsert_thr_h]
    exact insertOrderedBy_ne_nil _ _ _
  have hmemr : ∀ x ∈ ((recompute_eff_priority (donators_reinsert s cur h) h).thr h).donators,
      x = cur ∨ x ∈ (s.thr h).donators := by
    intro x hx
    rw [recompute_thr_eq] at hx
    exact hmemd x hx
  have hner : ((recompute_eff_priority (donators_reinsert s cur h) h).thr h).donators ≠ [] := by
    rw [recompute_thr_eq]
    exact hned
  unfold propagate_eff_priority
  simp only [hw, hh]
  split
  · exact ⟨hmemd, hned⟩
  · split
    · exact ⟨hmemr, hner⟩
    · have hstop : ((recompute_eff_priority (donators_reinsert s cur h) h).thr
          h).waiting_lock = none := by
        rw [recompute_thr_eq]
        show ((donators_reinsert s cur h).thr h).waiting_lock = none
        rw [donators_reinsert_thr_h]
        exact hwh
      rw [propagate_stop _ _ _ hstop]
      exact ⟨hmemr, hner⟩

theorem acquire_inner_donators (s s1 s2 : KS) (cur lid h : Nat)
    (hs1 : s1 = updThr s cur (fun t => { t with waiting_lock := some lid }))
    (hs2 : s2 = updThr s1 h (fun t =>
      { t with donators := insertOrderedBy (higher_priority_donate s1) cur t.donators }))
    (hh : (s.lock lid).holder = some h)
    (hne : h ≠ cur)
    (hwh : (s.thr h).waiting_lock = none) :
    (∀ x ∈ ((propagate_eff_priority s2 cur DONATION_DEPTH_LIMIT).thr h).donators,
       x = cur ∨ x ∈ (s.thr h).donators) ∧
    ((propagate_eff_priority s2 cur DONATION_DEPTH_LIMIT).thr h).donators ≠ [] := by
  have hne2 : cur ≠ h := fun e => hne e.symm
  have hw2 : (s2.thr cur).waiting_lock = some lid := by
    rw [hs2, updThr_thr, if_neg hne2, hs1, updThr_thr, if_pos rfl]
  have hh2 : (s2.lock lid).holder = some h := by
    rw [hs2, updThr_lock, hs1, updThr_lock]
    exact hh
  have hwh2 : (s2.thr h).waiting_lock = none := by
    rw [hs2, updThr_thr, if_pos rfl, hs1, updThr_thr, if_neg hne]
    exact hwh
  have hdon2 : ∀ x, x ∈ (s2.thr h).donators → x = cur ∨ x ∈ (s.thr h).donators := by
    intro x hx
    rw [hs2, updThr_thr, if_pos rfl] at hx
    have hx2 : x ∈ insertOrderedBy (higher_priority_donate s1) cur ((s1.thr h).donators) := hx
    rcases (mem_insertOrderedBy _ cur _ x).mp hx2 with rfl | hx3
    · exact Or.inl rfl
    · rw [hs1, updThr_thr, if_neg hne] at hx3
      exact Or.inr hx3
  have e8 : DONATION_DEPTH_LIMIT = 7 + 1 := rfl
  rw [e8]
  obtain ⟨hm, hn⟩ := propagate_blocked_donators s2 cur lid h 7 hw2 hh2 hwh2 hne
  refine ⟨?_, hn⟩
  intro x hx
  rcases hm x hx with rfl | hx2
  · exact Or.inl rfl
  · exact hdon2 x hx2

theorem lock_acquire_wl_other (m : Bool) (s : KS) (cur lid x : Nat) (hx : x ≠ cur) :
    ((lock_acquire m s cur lid).thr x).waiting_lock = (s.thr x).waiting_lock := by
  unfold lock_acquire
  cases hh : (s.lock lid).holder with
  | some h =>
    simp only [hh]
    rw [updThr_thr, if_neg hx, updLock_thr,
        propagate_proj (fun t => t.waiting_lock) (fun t d => rfl) (fun t e => rfl),
        updThr_thr]
    split
    · rw [updThr_thr, if_neg hx]
    · rw [updThr_thr, if_neg hx]
  | none =>
    simp only [hh]
    rw [updThr_thr, if_neg hx, updLock_thr, updThr_thr, if_neg hx, updLock_thr]

theorem lock_acquire_held_wl_cur (m : Bool) (s : KS) (cur lid h : Nat)
    (hh : (s.lock lid).holder = some h) :
    ((lock_acquire m s cur lid).thr cur).waiting_lock = some lid := by
  unfold lock_acquire
  simp only [hh]
  rw [updThr_thr, if_pos rfl]
  show ((updLock (propagate_eff_priority _ cur DONATION_DEPTH_LIMIT) lid _).thr
      cur).waiting_lock = some lid
  rw [updLock_thr,
      propagate_proj (fun t => t.waiting_lock) (fun t d => rfl) (fun t e => rfl),
      updThr_thr]
  split
  · rw [updThr_thr, if_pos rfl]
  · rw [updThr_thr, if_pos rfl]

theorem lock_acquire_held_holder (m : Bool) (s : KS) (cur lid h : Nat)
    (hh : (s.lock lid).holder = some h) :
    ((lock_acquire m s cur lid).lock lid).holder = some h := by
  unfold lock_acquire
  simp only [hh]
  rw [updThr_lock, updLock_lock, if_pos rfl]
  show ((propagate_eff_priority _ cur DONATION_DEPTH_LIMIT).lock lid).holder = some h
  rw [propagate_lock, updThr_lock, updThr_lock]
  exact hh

theorem lock_acquire_held_donators (m : Bool) (s : KS) (cur lid h : Nat)
    (hh : (s.lock lid).holder = some h)
    (hne : h ≠ cur)
    (hwh : (s.thr h).waiting_lock = none) :
    (∀ x ∈ ((lock_acquire m s cur lid).thr h).donators,
       x = cur ∨ x ∈ (s.thr h).donators) ∧
    ((lock_acquire m s cur lid).thr h).donators ≠ [] := by
  unfold lock_acquire
  simp only [hh]
  rw [updThr_thr, if_neg hne, updLock_thr]
  exact acquire_inner_donators s _ _ cur lid h rfl rfl hh hne hwh

theorem lock_acquire_free_facts (m : Bool) (s : KS) (cur lid : Nat)
    (hfree : (s.lock lid).holder = none) :
    ((lock_acquire m s cur lid).lock lid).holder = some cur ∧
    (∀ x, ((lock_acquire m s cur lid).thr x).donators = (s.thr x).donators) ∧
    (∀ x, ((lock_acquire m s cur lid).thr x).eff_priority = (s.thr x).eff_priority) ∧
    ((lock_acquire m s cur lid).thr cur).waiting_lock = none ∧
    (∀ x, x ≠ cur → ((lock_acquire m s cur lid).thr x).waiting_lock
        = (s.thr x).waiting_lock) := by
  unfold lock_acquire
  simp only [hfree]
  refine ⟨?_, ?_, ?_, ?_, ?_⟩
  · rw [updThr_lock, updLock_lock, if_pos rfl]
  · intro x
    rw [updThr_thr]
    split
    · rw [updLock_thr, updThr_thr]
      split
      · rw [updLock_thr]
      · rw [updLock_thr]
    · rw [updLock_thr, updThr_thr]
      split
      · rw [updLock_thr]
      · rw [updLock_thr]
  · intro x
    rw [updThr_thr]
    split
    · rw [updLock_thr, updThr_thr]
      split
      · rw [updLock_thr]
      · rw [updLock_thr]
    · rw [updLock_thr, updThr_thr]
      split
      · rw [updLock_thr]
      · rw [updLock_thr]
  · rw [updThr_thr, if_pos rfl]
    show ((updLock (updThr (updLock s lid _) cur _) lid _).thr cur).waiting_lock = none
    rw [updLock_thr, updThr_thr, if_pos rfl]
  · intro x hx
    rw [updThr_thr, if_neg hx, updLock_thr, updThr_thr, if_neg hx, updLock_thr]

/-- Invariant carried across the donation interval of the round-trip claim:
the thread H holds lock L, is itself not blocked on any lock, keeps its
original base_priority, every thread in its donators is blocked on L, and
an empty donators list pins its effective priority at base. -/
def C8Inv (s0 : KS) (H L : Nat) (s : KS) : Prop :=
  (s.lock L).holder = some H ∧
  (s.thr H).waiting_lock = none ∧
  (s.thr H).base_priority = (s0.thr H).base_priority ∧
  (∀ x ∈ (s.thr H).donators, (s.thr x).waiting_lock = some L) ∧
  ((s.thr H).donators = [] → (s.thr H).eff_priority = (s0.thr H).base_priority)

theorem C8Inv_init (m : Bool) (s0 : KS) (H L : Nat)
    (hfree : (s0.lock L).holder = none)
    (hnd : (s0.thr H).donators = [])
    (heff : (s0.thr H).eff_priority = (s0.thr H).base_priority) :
    C8Inv s0 H L (lock_acquire m s0 H L) := by
  obtain ⟨f1, f2, f3, f4, f5⟩ := lock_acquire_free_facts m s0 H L hfree
  have hbase : ∀ x, ((lock_acquire m s0 H L).thr x).base_priority
      = (s0.thr x).base_priority := fun x =>
    lock_acquire_proj (fun t => t.base_priority)
      (fun t d => rfl) (fun t e => rfl) (fun t w => rfl) (fun t st => rfl) (fun t hl => rfl)
      m s0 H L x
  refine ⟨f1, f4, hbase H, ?_, ?_⟩
  · intro x hx
    rw [f2 H, hnd] at hx
    exact absurd hx (List.not_mem_nil x)
  · intro _
    rw [f3 H, heff]

theorem C8Inv_acquire (m : Bool) (s0 : KS) (H L : Nat) (s : KS) (d : Nat)
    (hInv : C8Inv s0 H L s) (hdH : d ≠ H) :
    C8Inv s0 H L (lock_acquire m s d L) := by
  obtain ⟨h1, h2, h3, h4, h5⟩ := hInv
  have hne : H ≠ d := fun e => hdH e.symm
  have hbase : ∀ x, ((lock_acquire m s d L).thr x).base_priority
      = (s.thr x).base_priority := fun x =>
    lock_acquire_proj (fun t => t.base_priority)
      (fun t dd => rfl) (fun t e => rfl) (fun t w => rfl) (fun t st => rfl) (fun t hl => rfl)
      m s d L x

  obtain ⟨hmem, hnonempty⟩ := lock_acquire_held_donators m s d L H h1 hne h2
  refine ⟨?_, ?_, ?_, ?_, ?_⟩
  · exact lock_acquire_held_holder m s d L H h1
  · rw [lock_acquire_wl_other m s d L H hne]
    exact h2
  · rw [hbase H]
    exact h3
  · intro x hx
    rcases hmem x hx with rfl | hx2
    · exact lock_acquire_held_wl_cur m s x L H h1
    · by_cases hxd : x = d
      · subst hxd
        exact lock_acquire_held_wl_cur m s x L H h1
      · rw [lock_acquire_wl_other m s d L x hxd]
        exact h4 x hx2
  · intro hd
    exact absurd hd hnonempty

theorem C8Inv_fold (m : Bool) (s0 : KS) (H L : Nat) :
    ∀ (ds : List Nat) (s : KS), C8Inv s0 H L s → (∀ d ∈ ds, d ≠ H) →
      C8Inv s0 H L (ds.foldl (fun sacc d => lock_acquire m sacc d L) s) := by
  intro ds
  induction ds with
  | nil => intro s h _; exact h
  | cons d rest ih =>
    intro s h hds
    simp only [List.foldl_cons]
    exact ih _ (C8Inv_acquire m s0 H L s d h (hds d (List.mem_cons_self d rest)))
      (fun x hx => hds x (List.mem_cons_of_mem _ hx))

theorem lock_release_eff_cur (s : KS) (cur lid : Nat) :
    ((lock_release s cur lid).thr cur).eff_priority
      = ((if (s.thr cur).donators = [] then s
          else recompute_eff_priority (remove_donators_related_lock s cur lid) cur).thr
            cur).eff_priority := by
  unfold lock_release
  rw [sema_up_proj (fun t => t.eff_priority) (fun t st => rfl), updLock_thr,
      updThr_thr, if_pos rfl]

theorem C8_release (s0 : KS) (H L : Nat) (sf : KS) (hInv : C8Inv s0 H L sf) :
    ((lock_release sf H L).thr H).eff_priority = (s0.thr H).base_priority := by
  obtain ⟨h1, h2, h3, h4, h5⟩ := hInv
  rw [lock_release_eff_cur]
  split
  · rename_i hd
    exact h5 hd
  · rw [recompute_thr_eq]
    show effMaxOf (remove_donators_related_lock sf H L)
        ((remove_donators_related_lock sf H L).thr H) = (s0.thr H).base_priority
    have hr : (remove_donators_related_lock sf H L).thr H
        = { sf.thr H with
            donators := (sf.thr H).donators.filter
              (fun d => decide (¬ (sf.thr d).waiting_lock = some L)) } := by
      unfold remove_donators_related_lock
      rw [updThr_thr, if_pos rfl]
    have hfilter : (sf.thr H).donators.filter
        (fun d => decide (¬ (sf.thr d).waiting_lock = some L)) = [] := by
      apply List.filter_eq_nil_iff.mpr
      intro a ha
      simp [h4 a ha]
    rw [hr]
    rw [effMaxOf_nil _ _ (by show (sf.thr H).donators.filter _ = []; exact hfilter)]
    exact h3

/-- Claim C8: for a thread with no other donations (empty donators, its
effective priority equal to its base, and itself not blocked on any lock),
acquiring a free lock, collecting any sequence of donors that block on that
same lock, and then releasing it returns the thread's effective priority to
exactly the value it had before the acquire: the release removes every
donor whose waited-on lock is this lock and recomputes the maximum of
base_priority over the remaining (here: no) donations. -/
theorem acquire_release_restores_eff_priority (m : Bool) (s0 : KS) (H L : Nat)
    (ds : List Nat)
    (hfree : (s0.lock L).holder = none)
    (hnd : (s0.thr H).donators = [])
    (heff : (s0.thr H).eff_priority = (s0.thr H).base_priority)
    (hds : ∀ d ∈ ds, d ≠ H) :
    ((lock_release (ds.foldl (fun sacc d => lock_acquire m sacc d L)
        (lock_acquire m s0 H L)) H L).thr H).eff_priority
      = (s0.thr H).eff_priority := by
  have hinit := C8Inv_init m s0 H L hfree hnd heff
  have hfold := C8Inv_fold m s0 H L ds (lock_acquire m s0 H L) hinit hds
  rw [heff]
  exact C8_release s0 H L _ hfold

/-- Thread with all three priority fields set to p, for concrete states. -/
def prioThread (p : Int) : Thread :=
  { baseThread with priority := p, base_priority := p, eff_priority := p }

/-- Concrete round-trip state: lock 0 free, thread 0 at priority 10,
thread 1 at 30, every other thread at 20. -/
def c8_state : KS :=
  { thr := fun i =>
      if i = 0 then prioThread 10 else if i = 1 then prioThread 30 else prioThread 20,
    lock := fun j => { holder := none, value := 1, waiters := [] } }

/-- Witness for acquire_release_restores_eff_priority: thread 0 (base and
effective priority 10) acquires free lock 0, threads 1 and 2 (effective
priorities 30 and 20) block on it — raising thread 0's eff_priority to
30 — and the release drops it back to exactly 10. -/
theorem acquire_release_restores_eff_priority_witness :
    ((lock_release ([1, 2].foldl (fun sacc d => lock_acquire false sacc d 0)
        (lock_acquire false c8_state 0 0)) 0 0).thr 0).eff_priority
      = (c8_state.thr 0).eff_priority ∧
    ((lock_release ([1, 2].foldl (fun sacc d => lock_acquire false sacc d 0)
        (lock_acquire false c8_state 0 0)) 0 0).thr 0).eff_priority = 10 ∧
    (([1, 2].foldl (fun sacc d => lock_acquire false sacc d 0)
        (lock_acquire false c8_state 0 0)).thr 0).eff_priority = 30 :=
  ⟨acquire_release_restores_eff_priority false c8_state 0 0 [1, 2]
      (by decide) (by decide) (by decide) (by decide),
   by decide, by decide⟩
